import Mathlib

/-
Verification development for the BetterImageViewer repository.

The Rust sources are shallowly embedded as Lean definitions:

* `f32` values are modelled as real numbers (`ℝ`), except in the JSON
  configuration where they are modelled as rationals (`ℚ`), since JSON
  carries decimal numerals;
* `PathBuf` is modelled as `String`; `usize` as `ℕ` (with `USIZE_MAX`
  where the source relies on `usize::MAX`);
* `HashMap<PathBuf, TextureHandle>` and `HashSet<PathBuf>` are modelled
  by their key sets (`Finset Path`): texture handles are opaque GPU
  resources that no claim inspects.  The arbitrary iteration order of a
  `HashMap` is modelled by quantifying over an arbitrary duplicate-free
  enumeration of the key set;
* mpsc channels are modelled by explicit lists of sent commands /
  received results; the image decoder (the external `image` crate) is an
  abstract parameter `decode : Path → Except String ColorImage`.
-/

namespace BIV

abbrev Path := String

abbrev Vec2 := ℝ × ℝ

def USIZE_MAX : Nat := 2 ^ 64 - 1

/-! ### src/animation.rs -/

/-- Embedding of `exp_decay` (src/animation.rs).  Returns the updated
`current` value together with the `bool` result (`true` iff the value is
still animating).  The interpolation factor `t = 1 - exp(-speed*dt)` of
the source is inlined. -/
noncomputable def exp_decay (current target dt speed : ℝ) : ℝ × Bool :=
  if 0.001 < |current - target| then
    (current + (target - current) * (1 - Real.exp (-speed * dt)), true)
  else
    (target, false)

/-- `egui::Vec2::length`. -/
noncomputable def vec2_length (v : Vec2) : ℝ := Real.sqrt (v.1 ^ 2 + v.2 ^ 2)

/-- Embedding of `exp_decay_vec2` (src/animation.rs). -/
noncomputable def exp_decay_vec2 (current target : Vec2) (dt speed : ℝ) : Vec2 × Bool :=
  if 0.1 < vec2_length (current - target) then
    (current + (1 - Real.exp (-speed * dt)) • (target - current), true)
  else
    (target, false)

/-! ### src/view_state.rs -/

/-- The `ViewState` struct (src/view_state.rs). -/
structure ViewState where
  zoom : ℝ
  pan : Vec2
  target_zoom : ℝ
  target_pan : Vec2

/-- `impl Default for ViewState` (src/view_state.rs). -/
def ViewState.start : ViewState :=
  { zoom := 1, pan := (0, 0), target_zoom := 1, target_pan := (0, 0) }

/-- `ViewState::reset` (src/view_state.rs). -/
def ViewState.reset (_s : ViewState) : ViewState :=
  { zoom := 1, pan := (0, 0), target_zoom := 1, target_pan := (0, 0) }

/-- The per-frame egui input read by `ViewState::process_input`:
`wants_pointer` abbreviates `ctx.wants_pointer_input() || ctx.is_pointer_over_area()`,
`primary_or_middle_down` abbreviates
`pointer.button_down(Primary) || pointer.button_down(Middle)`. -/
structure UiInput where
  wants_pointer : Bool
  double_clicked : Bool
  smooth_scroll_delta_y : ℝ
  hover_pos : Option Vec2
  clip_center : Vec2
  primary_or_middle_down : Bool
  pointer_delta : Vec2
  stable_dt : ℝ

/-- Rust `f32::clamp(lo, hi)`: `if x < lo { lo } else if x > hi { hi } else { x }`. -/
noncomputable def rustClamp (x lo hi : ℝ) : ℝ :=
  if x < lo then lo else if hi < x then hi else x

/-- Embedding of `ViewState::process_input` (src/view_state.rs): the
double-click reset, the pointer-centred scroll zoom with clamping, the
drag pan, and the exponential-decay animation step. -/
noncomputable def ViewState.process_input (s : ViewState) (i : UiInput) : ViewState :=
  -- 0. Handle Double Click to Reset
  let s0 :=
    if i.wants_pointer = false ∧ i.double_clicked = true then
      { s with target_zoom := 1, target_pan := ((0 : ℝ), (0 : ℝ)) }
    else s
  -- 1. Handle Zoom (Scroll)
  let scroll_delta : ℝ := if i.wants_pointer = true then 0 else i.smooth_scroll_delta_y
  let s1 :=
    if scroll_delta ≠ 0 then
      let zoom_steps := scroll_delta / 50
      let zoom_multiplier := Real.rpow 1.2 zoom_steps
      let pointer_pos := i.hover_pos.getD i.clip_center
      let old_target_zoom := s0.target_zoom
      let new_target_zoom := rustClamp (s0.target_zoom * zoom_multiplier) 0.01 500
      let rel_m := pointer_pos - i.clip_center
      { s0 with
        target_zoom := new_target_zoom,
        target_pan := rel_m - (new_target_zoom / old_target_zoom) • (rel_m - s0.target_pan) }
    else s0
  -- 2. Handle Pan (Mouse Drag)
  let s2 :=
    if i.wants_pointer = false ∧ i.primary_or_middle_down = true then
      { s1 with target_pan := s1.target_pan + i.pointer_delta, pan := s1.pan + i.pointer_delta }
    else s1
  -- 3. Animate Zoom and Pan
  let dt := min i.stable_dt 0.1
  { s2 with
    zoom := (exp_decay s2.zoom s2.target_zoom dt 15).1,
    pan := (exp_decay_vec2 s2.pan s2.target_pan dt 15).1 }

/-- The states a `ViewState` can reach through its operations, starting
from the default state. -/
inductive ViewReachable : ViewState → Prop where
  | start : ViewReachable ViewState.start
  | reset (s : ViewState) (h : ViewReachable s) : ViewReachable s.reset
  | input (s : ViewState) (i : UiInput) (h : ViewReachable s) :
      ViewReachable (s.process_input i)

/-! ### src/config.rs -/

/-- A JSON value, as produced/consumed by serde_json.  Numbers are
modelled as rationals (JSON carries decimal numerals). -/
inductive Json where
  | null : Json
  | num (q : ℚ) : Json
  | str (s : String) : Json
  | boolean (b : Bool) : Json
  | arr (xs : List Json) : Json
  | obj (fields : List (String × Json)) : Json

/-- The `AppConfig` struct (src/config.rs); `f32` coordinates modelled
as rationals. -/
structure AppConfig where
  window_pos : Option (ℚ × ℚ)
  window_size : Option (ℚ × ℚ)
deriving DecidableEq

/-- `impl Default for AppConfig` (src/config.rs). -/
def AppConfig.defaultConfig : AppConfig :=
  { window_pos := none, window_size := some (800, 600) }

/-- serde serialization of an `Option<[f32; 2]>` field: `None` becomes
`null`, `Some([a, b])` becomes `[a, b]`. -/
def encodePosPair : Option (ℚ × ℚ) → Json
  | none => Json.null
  | some (a, b) => Json.arr [Json.num a, Json.num b]

/-- serde deserialization of an `Option<[f32; 2]>` field. -/
def decodePosPair : Json → Option (Option (ℚ × ℚ))
  | Json.null => some none
  | Json.arr [Json.num a, Json.num b] => some (some (a, b))
  | _ => none

/-- `#[derive(Serialize)]` for `AppConfig`: the JSON value written by
`AppConfig::save` via `serde_json::to_string_pretty`. -/
def AppConfig.toJson (c : AppConfig) : Json :=
  Json.obj [("window_pos", encodePosPair c.window_pos),
            ("window_size", encodePosPair c.window_size)]

/-- Looks up an `Option<[f32; 2]>` field in a JSON object; a missing
field deserializes to `None` (serde's behaviour for `Option` fields). -/
def getPosField (fields : List (String × Json)) (name : String) :
    Option (Option (ℚ × ℚ)) :=
  match fields.lookup name with
  | none => some none
  | some j => decodePosPair j

/-- `#[derive(Deserialize)]` for `AppConfig`: the parse performed by
`serde_json::from_str` in `AppConfig::load`, on an already-lexed JSON
value. -/
def AppConfig.fromJson : Json → Option AppConfig
  | Json.obj fields =>
      match getPosField fields "window_pos" with
      | none => none
      | some wp =>
          match getPosField fields "window_size" with
          | none => none
          | some ws => some { window_pos := wp, window_size := ws }
  | _ => none

/-- `AppConfig::load` (src/config.rs).  `file = none` covers every case
in which no JSON value is obtained (no config dir, file absent,
unreadable, or text that does not lex as JSON); `file = some j` is a
lexed JSON value, which still fails to parse when it does not match the
`AppConfig` schema.  In every failure case the default is returned. -/
def AppConfig.load (file : Option Json) : AppConfig :=
  match file with
  | none => AppConfig.defaultConfig
  | some j =>
      match AppConfig.fromJson j with
      | some c => c
      | none => AppConfig.defaultConfig

/-! ### src/image_loader.rs -/

/-- `egui::ColorImage`: the decoded RGBA pixel data with its size.  Only
the size is ever inspected by the UI. -/
structure ColorImage where
  size : Nat × Nat
  pixels : List Nat
deriving DecidableEq

/-- `ImageCommand` (src/image_loader.rs). -/
inductive ImageCommand where
  | Load (path : Path) : ImageCommand
deriving DecidableEq

/-- `ImageResult` (src/image_loader.rs). -/
inductive ImageResult where
  | Success (path : Path) (image : ColorImage) : ImageResult
  | Error (path : Path) (err : String) : ImageResult
deriving DecidableEq

/-- `ThumbnailCommand` (src/image_loader.rs). -/
inductive ThumbnailCommand where
  | Load (path : Path) (max_dim : Nat) : ThumbnailCommand
deriving DecidableEq

/-- `ThumbnailResult` (src/image_loader.rs). -/
inductive ThumbnailResult where
  | Success (path : Path) (image : ColorImage) : ThumbnailResult
  | Error (path : Path) (err : String) : ThumbnailResult
deriving DecidableEq

/-- The image-loader worker's handling of one `ImageCommand::Load`
(src/image_loader.rs): `decode` abstracts the `image` crate's
open/guess-format/decode chain, returning either the decoded image or
the decode error's display string. -/
def process_command (decode : Path → Except String ColorImage) :
    ImageCommand → ImageResult
  | ImageCommand.Load path =>
      match decode path with
      | Except.ok img => ImageResult.Success path img
      | Except.error e => ImageResult.Error path ("Load error: " ++ e)

/-- The image-loader worker loop (src/image_loader.rs): commands are
received in FIFO order and each produces exactly one result, sent back
in the same order. -/
def image_loader_worker (decode : Path → Except String ColorImage)
    (cmds : List ImageCommand) : List ImageResult :=
  cmds.map (process_command decode)

/-! ### src/app.rs -/

/-- The `ImageViewer` struct (src/app.rs).  The two hash containers are
modelled by their key sets; the mpsc sender is modelled by returning the
list of sent commands from each operation. -/
structure ImageViewer where
  error_msg : Option String
  view_state : ViewState
  last_loaded_path : Option Path
  image_size : Option (Nat × Nat)
  current_folder_images : List Path
  current_image_index : Nat
  config : AppConfig
  current_image_path : Option Path
  texture_cache : Finset Path
  loading_paths : Finset Path
  reset_view_on_load : Bool

/-- `ImageViewer::request_load` (src/app.rs). -/
def request_load (v : ImageViewer) (path : Path) : ImageViewer × List ImageCommand :=
  if path ∉ v.texture_cache ∧ path ∉ v.loading_paths then
    ({ v with loading_paths := insert path v.loading_paths }, [ImageCommand.Load path])
  else
    (v, [])

/-- `ImageViewer::update_preloads` (src/app.rs): request the previous
and next images, then retain only the current/previous/next textures. -/
def update_preloads (v : ImageViewer) : ImageViewer × List ImageCommand :=
  if v.current_folder_images = [] then (v, [])
  else
    let len := v.current_folder_images.length
    let prev_idx := if v.current_image_index = 0 then len - 1 else v.current_image_index - 1
    let next_idx := (v.current_image_index + 1) % len
    let prev_path := v.current_folder_images.getD prev_idx ""
    let next_path := v.current_folder_images.getD next_idx ""
    let r1 := request_load v prev_path
    let r2 := request_load r1.1 next_path
    let keep_paths : Finset Path :=
      (match r2.1.current_image_path with
       | some curr => {curr}
       | none => ∅) ∪ {prev_path, next_path}
    ({ r2.1 with texture_cache := r2.1.texture_cache.filter (fun k => k ∈ keep_paths) },
      r1.2 ++ r2.2)

/-- `ImageViewer::load_file` (src/app.rs). -/
def load_file (v : ImageViewer) (path : Path) (reset_view : Bool) :
    ImageViewer × List ImageCommand :=
  let v1 := { v with
    current_image_path := some path,
    reset_view_on_load := reset_view,
    error_msg := none }
  let r1 := request_load v1 path
  let r2 := update_preloads r1.1
  (r2.1, r1.2 ++ r2.2)

/-- `ImageViewer::next_image` (src/app.rs). -/
def next_image (v : ImageViewer) : ImageViewer × List ImageCommand :=
  if v.current_folder_images = [] then (v, [])
  else
    let v1 := { v with
      current_image_index := (v.current_image_index + 1) % v.current_folder_images.length }
    load_file v1 (v1.current_folder_images.getD v1.current_image_index "") false

/-- `ImageViewer::prev_image` (src/app.rs). -/
def prev_image (v : ImageViewer) : ImageViewer × List ImageCommand :=
  if v.current_folder_images = [] then (v, [])
  else
    let v1 := { v with
      current_image_index :=
        if v.current_image_index = 0 then v.current_folder_images.length - 1
        else v.current_image_index - 1 }
    load_file v1 (v1.current_folder_images.getD v1.current_image_index "") false

/-- The result-draining loop at the top of `ImageViewer::update`
(src/app.rs), for a single received `ImageResult`. -/
def handle_result (v : ImageViewer) (r : ImageResult) : ImageViewer :=
  match r with
  | ImageResult.Success path image =>
      let v1 := { v with
        loading_paths := v.loading_paths.erase path,
        texture_cache := insert path v.texture_cache }
      if v1.current_image_path = some path then
        let v2 := { v1 with
          last_loaded_path := some path,
          image_size := some image.size }
        if v2.reset_view_on_load then
          { v2 with view_state := v2.view_state.reset, reset_view_on_load := false }
        else v2
      else v1
  | ImageResult.Error path err =>
      let v1 := { v with loading_paths := v.loading_paths.erase path }
      if v1.current_image_path = some path then
        { v1 with error_msg := some err }
      else v1

/-! ### src/main.rs -/

/-- The `ImageViewer` struct defined in src/main.rs (a standalone older
viewer: no folder state, no cache).  The texture handle is opaque. -/
structure MainViewer where
  texture : Option Unit
  error_msg : Option String
  is_loading : Bool
  zoom : ℝ
  pan : Vec2
  last_loaded_path : Option String
  image_size : Option (Nat × Nat)

/-- `ImageViewer::new` in src/main.rs. -/
def MainViewer.new : MainViewer :=
  { texture := none, error_msg := none, is_loading := false,
    zoom := 1, pan := (0, 0), last_loaded_path := none, image_size := none }

/-- Embedding of `fn main` (src/main.rs) as a function of the process
argument list: `main` builds the `NativeOptions` and starts the event
loop with `ImageViewer::new(cc)`.  Nothing in src/main.rs reads
`std::env::args` (nor does any other file in the crate), so the startup
state is independent of the arguments and no load command is sent at
startup. -/
def main_startup (_args : List String) : MainViewer × List ImageCommand :=
  (MainViewer.new, [])

/-! ### src/thumbnail_list.rs -/

/-- The `ThumbnailList` struct (src/thumbnail_list.rs).  The thumbnail
cache is modelled by its key set (texture handles are opaque); the strip
UI animation fields (`is_expanded`, `expand_progress`, `hover_opacity`)
and the loader channel handle are omitted — no claim mentions them, and
they do not feed back into the cache logic. -/
structure ThumbnailList where
  thumbnails : Finset Path
  loading_path : Option Path

/-- `folder_images.iter().position(|p| p == a).unwrap_or(0)` as used by
the eviction comparator (src/thumbnail_list.rs). -/
def position (folder : List Path) (a : Path) : Nat :=
  (folder.findIdx? (fun p => p == a)).getD 0

/-- `(i as isize - current_index as isize).abs()` as a natural number. -/
def idxDist (i current : Nat) : Nat := ((i : ℤ) - (current : ℤ)).natAbs

/-- Index distance of a cached path from `current_index`, with a path
not present in `folder_images` treated as index `0`. -/
def pathDist (folder : List Path) (current : Nat) (a : Path) : Nat :=
  idxDist (position folder a) current

/-- The eviction comparator `dist_b.cmp(&dist_a)` of
`ThumbnailList::update_folder`: sorts the key list furthest-first. -/
def evictLE (folder : List Path) (current : Nat) (a b : Path) : Bool :=
  decide (pathDist folder current b ≤ pathDist folder current a)

/-- The eviction `while` loop of `ThumbnailList::update_folder`: while
the cache holds more than 100 entries, remove the head of the
furthest-first key list from the cache. -/
def evict_loop (thumbs : Finset Path) : List Path → Finset Path
  | [] => thumbs
  | k :: rest =>
      if 100 < thumbs.card then evict_loop (thumbs.erase k) rest else thumbs

/-- The `for (i, path) in folder_images.iter().enumerate()` loop of
`ThumbnailList::try_load_next`; `acc = (best_idx, min_dist)` and `i` is
the index of the head of the remaining list. -/
def best_loop (thumbs : Finset Path) (current : Nat) :
    List Path → Nat → Option Nat × Nat → Option Nat × Nat
  | [], _, acc => acc
  | p :: rest, i, acc =>
      best_loop thumbs current rest (i + 1)
        (if p ∉ thumbs then
          (if idxDist i current < acc.2 then (some i, idxDist i current) else acc)
        else acc)

/-- `ThumbnailList::try_load_next` (src/thumbnail_list.rs). -/
def try_load_next (tl : ThumbnailList) (folder : List Path) (current_index : Nat) :
    ThumbnailList × List ThumbnailCommand :=
  if tl.loading_path = none ∧ folder ≠ [] then
    match (best_loop tl.thumbnails current_index folder 0 (none, USIZE_MAX)).1 with
    | some idx =>
        let path := folder.getD idx ""
        ({ tl with loading_path := some path }, [ThumbnailCommand.Load path 128])
    | none => (tl, [])
  else (tl, [])

/-- `ThumbnailList::update_folder` (src/thumbnail_list.rs).  `hashKeys`
is the arbitrary order in which `self.thumbnails.keys()` enumerates the
cached keys (a `HashMap` iterates in unspecified order). -/
def update_folder (tl : ThumbnailList) (hashKeys folder : List Path) (current_index : Nat) :
    ThumbnailList × List ThumbnailCommand :=
  if folder = [] then (tl, [])
  else
    let tl1 :=
      if 200 < tl.thumbnails.card then
        { tl with thumbnails :=
            evict_loop tl.thumbnails (hashKeys.mergeSort (evictLE folder current_index)) }
      else tl
    try_load_next tl1 folder current_index

/-- `ThumbnailList::process_results` (src/thumbnail_list.rs): every
received result inserts a texture for its path (the error case inserts
the 1x1 placeholder); if at least one result arrived, `loading_path` is
cleared and `try_load_next` runs. -/
def process_results (tl : ThumbnailList) (results : List ThumbnailResult)
    (folder : List Path) (current_index : Nat) : ThumbnailList × List ThumbnailCommand :=
  let thumbs := results.foldl (fun acc r =>
      match r with
      | ThumbnailResult.Success p _ => insert p acc
      | ThumbnailResult.Error p _ => insert p acc) tl.thumbnails
  let tl1 : ThumbnailList := { tl with thumbnails := thumbs }
  if results = [] then (tl1, [])
  else try_load_next { tl1 with loading_path := none } folder current_index

/-- A `ThumbnailList` together with the number of in-flight thumbnail
requests: commands sent to the worker whose results have not yet been
drained by `process_results`. -/
structure ThumbSys where
  tl : ThumbnailList
  inflight : Nat

/-- The states reachable through the public `ThumbnailList` operations,
starting from `ThumbnailList::new` (empty cache, nothing loading).  The
worker answers each command with exactly one result, so a
`process_results` call can never drain more results than there are
in-flight requests. -/
inductive ThumbReachable : ThumbSys → Prop where
  | init : ThumbReachable ⟨⟨∅, none⟩, 0⟩
  | step_update_folder (s : ThumbSys) (hashKeys folder : List Path) (ci : Nat)
      (hs : ThumbReachable s) :
      ThumbReachable ⟨(update_folder s.tl hashKeys folder ci).1,
        s.inflight + (update_folder s.tl hashKeys folder ci).2.length⟩
  | step_process (s : ThumbSys) (results : List ThumbnailResult)
      (folder : List Path) (ci : Nat) (hs : ThumbReachable s)
      (hlen : results.length ≤ s.inflight) :
      ThumbReachable ⟨(process_results s.tl results folder ci).1,
        s.inflight - results.length + (process_results s.tl results folder ci).2.length⟩

/-- A sample viewer state used by concrete witnesses. -/
def sampleViewer : ImageViewer :=
  { error_msg := none, view_state := ViewState.start, last_loaded_path := none,
    image_size := none, current_folder_images := ["a", "b"], current_image_index := 0,
    config := AppConfig.defaultConfig, current_image_path := some "a",
    texture_cache := ∅, loading_paths := ∅, reset_view_on_load := true }

-- ===== Theorems =====

/-! ### Helper lemmas -/

theorem rustClamp_mem (x lo hi : ℝ) (h : lo ≤ hi) :
    lo ≤ rustClamp x lo hi ∧ rustClamp x lo hi ≤ hi := by
  unfold rustClamp
  split_ifs with h1 h2
  · exact ⟨le_refl _, h⟩
  · exact ⟨h, le_refl _⟩
  · exact ⟨not_lt.mp h1, not_lt.mp h2⟩

theorem rustClamp_eq_self (x lo hi : ℝ) (h1 : lo ≤ x) (h2 : x ≤ hi) :
    rustClamp x lo hi = x := by
  unfold rustClamp
  rw [if_neg (not_lt.mpr h1), if_neg (not_lt.mpr h2)]

theorem exp_factor_pos (dt speed : ℝ) (hdt : 0 < dt) (hs : 0 < speed) :
    0 < 1 - Real.exp (-speed * dt) := by
  have h1 : Real.exp (-speed * dt) < Real.exp 0 := by
    apply Real.exp_lt_exp.mpr
    nlinarith
  rw [Real.exp_zero] at h1
  linarith

theorem exp_factor_lt_one (dt speed : ℝ) :
    1 - Real.exp (-speed * dt) < 1 := by
  have := Real.exp_pos (-speed * dt)
  linarith

theorem process_input_target_zoom (s : ViewState) (i : UiInput) :
    (s.process_input i).target_zoom = s.target_zoom ∨
    (s.process_input i).target_zoom = 1 ∨
    ∃ x, (s.process_input i).target_zoom = rustClamp x 0.01 500 := by
  unfold ViewState.process_input
  dsimp only
  split_ifs <;>
    first
      | exact Or.inl rfl
      | exact Or.inr (Or.inl rfl)
      | exact Or.inr (Or.inr ⟨_, rfl⟩)

/-! ### Claim theorems -/

/-- C7: for every current value, target, `dt > 0` and `speed > 0`: if
`|current - target| > 0.001` then `exp_decay` moves the value strictly
toward the target without overshooting (the new value lies strictly
between the old value and the target) and returns `true`; otherwise it
sets the value exactly to the target and returns `false`. -/
theorem exp_decay_correct (current target dt speed : ℝ)
    (hdt : 0 < dt) (hs : 0 < speed) :
    (0.001 < |current - target| →
        (exp_decay current target dt speed).2 = true ∧
        min current target < (exp_decay current target dt speed).1 ∧
        (exp_decay current target dt speed).1 < max current target) ∧
    (¬ 0.001 < |current - target| →
        (exp_decay current target dt speed).1 = target ∧
        (exp_decay current target dt speed).2 = false) := by
  have ht0 : 0 < 1 - Real.exp (-speed * dt) := exp_factor_pos dt speed hdt hs
  have ht1 : 1 - Real.exp (-speed * dt) < 1 := exp_factor_lt_one dt speed
  constructor
  · intro h
    have hne : current ≠ target := by
      intro he
      rw [he, sub_self, abs_zero] at h
      norm_num at h
    rw [exp_decay, if_pos h]
    refine ⟨rfl, ?_, ?_⟩
    · rcases lt_or_gt_of_ne hne with hlt | hgt
      · rw [min_eq_left hlt.le]
        simp only
        nlinarith
      · rw [min_eq_right hgt.le]
        simp only
        nlinarith
    · rcases lt_or_gt_of_ne hne with hlt | hgt
      · rw [max_eq_right hlt.le]
        simp only
        nlinarith
      · rw [max_eq_left hgt.le]
        simp only
        nlinarith
  · intro h
    rw [exp_decay, if_neg h]
    exact ⟨rfl, rfl⟩

/-- Witness for C7 at a concrete input. -/
theorem exp_decay_correct_witness :
    (0 : ℝ) < 1 ∧
    ((0.001 < |(2 : ℝ) - 0| →
        (exp_decay 2 0 1 1).2 = true ∧
        min (2 : ℝ) 0 < (exp_decay 2 0 1 1).1 ∧
        (exp_decay 2 0 1 1).1 < max (2 : ℝ) 0) ∧
      (¬ 0.001 < |(2 : ℝ) - 0| →
        (exp_decay 2 0 1 1).1 = 0 ∧
        (exp_decay 2 0 1 1).2 = false)) :=
  ⟨by norm_num, exp_decay_correct 2 0 1 1 (by norm_num) (by norm_num)⟩

/-- C9: the invariant `0.01 ≤ target_zoom ≤ 500` is preserved by every
`ViewState` operation: the default state and `reset` set `target_zoom`
to `1`, and every state reachable from the default state through
`reset` / `process_input` keeps `target_zoom` within `[0.01, 500]`. -/
theorem target_zoom_bounded :
    ViewState.start.target_zoom = 1 ∧
    (∀ s : ViewState, s.reset.target_zoom = 1) ∧
    (∀ s : ViewState, ViewReachable s →
        0.01 ≤ s.target_zoom ∧ s.target_zoom ≤ 500) := by
  refine ⟨rfl, fun _ => rfl, ?_⟩
  intro s h
  induction h with
  | start => constructor <;> norm_num [ViewState.start]
  | reset s h ih => constructor <;> norm_num [ViewState.reset]
  | input s i h ih =>
      rcases process_input_target_zoom s i with hz | hz | ⟨x, hz⟩
      · rw [hz]; exact ih
      · rw [hz]; norm_num
      · rw [hz]; exact rustClamp_mem x 0.01 500 (by norm_num)

/-- C8: zooming is centred on the pointer.  For a scroll step of
`ViewState::process_input` (pointer not captured elsewhere, no double
click, no drag) where the zoom clamp does not bind and the old target
zoom is nonzero, the image point under the pointer is left fixed:
`(rel_m - new_pan) / new_zoom = (rel_m - old_pan) / old_zoom`, where
`rel_m` is the pointer position relative to the screen centre. -/
theorem zoom_centered_on_pointer (s : ViewState) (i : UiInput)
    (hw : i.wants_pointer = false) (hdc : i.double_clicked = false)
    (hscroll : i.smooth_scroll_delta_y ≠ 0)
    (hdrag : i.primary_or_middle_down = false)
    (hz : s.target_zoom ≠ 0)
    (hlo : 0.01 ≤ s.target_zoom * Real.rpow 1.2 (i.smooth_scroll_delta_y / 50))
    (hhi : s.target_zoom * Real.rpow 1.2 (i.smooth_scroll_delta_y / 50) ≤ 500) :
    (s.process_input i).target_zoom
        = s.target_zoom * Real.rpow 1.2 (i.smooth_scroll_delta_y / 50) ∧
    (1 / (s.process_input i).target_zoom) •
        (i.hover_pos.getD i.clip_center - i.clip_center - (s.process_input i).target_pan)
      = (1 / s.target_zoom) •
        (i.hover_pos.getD i.clip_center - i.clip_center - s.target_pan) := by
  have hclamp :
      rustClamp (s.target_zoom * Real.rpow 1.2 (i.smooth_scroll_delta_y / 50)) 0.01 500
        = s.target_zoom * Real.rpow 1.2 (i.smooth_scroll_delta_y / 50) :=
    rustClamp_eq_self _ _ _ hlo hhi
  have hzm : s.target_zoom * Real.rpow 1.2 (i.smooth_scroll_delta_y / 50) ≠ 0 := by
    intro h0
    rw [h0] at hlo
    norm_num at hlo
  unfold ViewState.process_input
  dsimp only
  rw [hw, hdc, hdrag]
  simp only [Bool.false_eq_true, and_false, if_false, ite_false, if_true, ite_true, ne_eq,
    hscroll, not_false_eq_true, if_pos]
  rw [hclamp]
  refine ⟨rfl, ?_⟩
  rw [sub_sub_cancel, smul_smul]
  congr 1
  field_simp
  ring

/-- Witness for C8 at a concrete scroll step. -/
theorem zoom_centered_on_pointer_witness :
    (⟨false, false, 50, none, (0, 0), false, (0, 0), 1⟩ : UiInput).wants_pointer = false ∧
    (⟨false, false, 50, none, (0, 0), false, (0, 0), 1⟩ : UiInput).double_clicked = false ∧
    (⟨false, false, 50, none, (0, 0), false, (0, 0), 1⟩ : UiInput).smooth_scroll_delta_y ≠ 0 ∧
    ViewState.start.target_zoom ≠ 0 ∧
    ((ViewState.start.process_input ⟨false, false, 50, none, (0, 0), false, (0, 0), 1⟩).target_zoom
        = ViewState.start.target_zoom * Real.rpow 1.2
            ((⟨false, false, 50, none, (0, 0), false, (0, 0), 1⟩ : UiInput).smooth_scroll_delta_y / 50) ∧
      (1 / (ViewState.start.process_input
              ⟨false, false, 50, none, (0, 0), false, (0, 0), 1⟩).target_zoom) •
          ((⟨false, false, 50, none, (0, 0), false, (0, 0), 1⟩ : UiInput).hover_pos.getD
              (⟨false, false, 50, none, (0, 0), false, (0, 0), 1⟩ : UiInput).clip_center
            - (⟨false, false, 50, none, (0, 0), false, (0, 0), 1⟩ : UiInput).clip_center
            - (ViewState.start.process_input
                ⟨false, false, 50, none, (0, 0), false, (0, 0), 1⟩).target_pan)
        = (1 / ViewState.start.target_zoom) •
          ((⟨false, false, 50, none, (0, 0), false, (0, 0), 1⟩ : UiInput).hover_pos.getD
              (⟨false, false, 50, none, (0, 0), false, (0, 0), 1⟩ : UiInput).clip_center
            - (⟨false, false, 50, none, (0, 0), false, (0, 0), 1⟩ : UiInput).clip_center
            - ViewState.start.target_pan)) :=
  ⟨rfl, rfl, by norm_num, by norm_num [ViewState.start],
    zoom_centered_on_pointer ViewState.start ⟨false, false, 50, none, (0, 0), false, (0, 0), 1⟩
      rfl rfl (by norm_num) rfl (by norm_num [ViewState.start])
      (by norm_num [ViewState.start, Real.rpow_one])
      (by norm_num [ViewState.start, Real.rpow_one])⟩

/-- Witness for C9 at the default state. -/
theorem target_zoom_bounded_witness :
    0.01 ≤ ViewState.start.target_zoom ∧ ViewState.start.target_zoom ≤ 500 :=
  target_zoom_bounded.2.2 ViewState.start ViewReachable.start

/-- C5: the window configuration round-trips through its JSON encoding,
and `AppConfig::load` returns the default configuration
(`window_pos = None`, `window_size = Some([800, 600])`) whenever the
config file is absent or its content fails to parse. -/
theorem app_config_roundtrip :
    (∀ c : AppConfig, AppConfig.fromJson (AppConfig.toJson c) = some c) ∧
    AppConfig.load none = AppConfig.defaultConfig ∧
    (∀ j : Json, AppConfig.fromJson j = none →
        AppConfig.load (some j) = AppConfig.defaultConfig) ∧
    AppConfig.defaultConfig
      = { window_pos := none, window_size := some (800, 600) } := by
  refine ⟨?_, rfl, ?_, rfl⟩
  · intro c
    rcases c with ⟨wp, ws⟩
    rcases wp with _ | ⟨a, b⟩ <;> rcases ws with _ | ⟨x, y⟩ <;> rfl
  · intro j h
    simp [AppConfig.load, h]

/-- Witness for C5 on a JSON value that fails to parse. -/
theorem app_config_roundtrip_witness :
    AppConfig.fromJson (Json.str "bad") = none ∧
    AppConfig.load (some (Json.str "bad")) = AppConfig.defaultConfig :=
  ⟨rfl, app_config_roundtrip.2.2.1 (Json.str "bad") rfl⟩

/-- C4 fails on the code: `main` in src/main.rs never reads the process
arguments, so startup is identical with or without an argument — no
image is opened and no load command is sent. -/
theorem main_ignores_cli_argument :
    ∀ args : List String,
      main_startup args = main_startup [] ∧
      (main_startup args).2 = [] ∧
      (main_startup args).1.texture = none ∧
      (main_startup args).1.is_loading = false :=
  fun _ => ⟨rfl, rfl, rfl, rfl⟩

/-- C2: the image-loader worker sends exactly one `ImageResult` per
`ImageCommand::Load`, in command order — `Success(path, image)` when
decoding succeeds, otherwise `Error(path, "Load error: " ++ e)` — and on
receiving an `Error` the UI sets the displayed error message to the
error string if and only if the path equals the current image path. -/
theorem image_loader_results (decode : Path → Except String ColorImage)
    (cmds : List ImageCommand) :
    (image_loader_worker decode cmds).length = cmds.length ∧
    (∀ k, k < cmds.length →
        (image_loader_worker decode cmds).getD k (ImageResult.Error "" "")
          = process_command decode (cmds.getD k (ImageCommand.Load "")) ∧
        ∀ path, cmds.getD k (ImageCommand.Load "") = ImageCommand.Load path →
          (∀ img, decode path = Except.ok img →
              (image_loader_worker decode cmds).getD k (ImageResult.Error "" "")
                = ImageResult.Success path img) ∧
          (∀ e, decode path = Except.error e →
              (image_loader_worker decode cmds).getD k (ImageResult.Error "" "")
                = ImageResult.Error path ("Load error: " ++ e))) ∧
    (∀ (v : ImageViewer) (path : Path) (err : String),
        (handle_result v (ImageResult.Error path err)).error_msg
          = if v.current_image_path = some path then some err else v.error_msg) := by
  have hget : ∀ k, k < cmds.length →
      (image_loader_worker decode cmds).getD k (ImageResult.Error "" "")
        = process_command decode (cmds.getD k (ImageCommand.Load "")) := by
    intro k hk
    unfold image_loader_worker
    rw [List.getD_eq_getElem?_getD, List.getD_eq_getElem?_getD, List.getElem?_map,
      List.getElem?_eq_getElem hk]
    rfl
  refine ⟨List.length_map _ _, ?_, ?_⟩
  · intro k hk
    refine ⟨hget k hk, ?_⟩
    intro path hpath
    constructor
    · intro img hdec
      rw [hget k hk, hpath]
      simp [process_command, hdec]
    · intro e hdec
      rw [hget k hk, hpath]
      simp [process_command, hdec]
  · intro v path err
    simp only [handle_result]
    split_ifs with h <;> rfl

/-- Witness for C2 on a one-command queue with a failing decoder. -/
theorem image_loader_results_witness :
    0 < ([ImageCommand.Load "a"] : List ImageCommand).length ∧
    (image_loader_worker (fun _ => Except.error "boom") [ImageCommand.Load "a"]).getD 0
        (ImageResult.Error "" "")
      = process_command (fun _ => Except.error "boom")
          (([ImageCommand.Load "a"] : List ImageCommand).getD 0 (ImageCommand.Load "")) :=
  ⟨by decide,
    ((image_loader_results (fun _ => Except.error "boom") [ImageCommand.Load "a"]).2.1 0
        (by decide)).1⟩

/-! Helper lemmas: `request_load`, `update_preloads` and `load_file`
only touch `loading_paths`, `texture_cache`, `current_image_path`,
`reset_view_on_load` and `error_msg`; navigation state is preserved. -/

theorem request_load_index (v : ImageViewer) (p : Path) :
    (request_load v p).1.current_image_index = v.current_image_index := by
  unfold request_load
  split_ifs <;> rfl

theorem request_load_folder (v : ImageViewer) (p : Path) :
    (request_load v p).1.current_folder_images = v.current_folder_images := by
  unfold request_load
  split_ifs <;> rfl

theorem request_load_current_path (v : ImageViewer) (p : Path) :
    (request_load v p).1.current_image_path = v.current_image_path := by
  unfold request_load
  split_ifs <;> rfl

theorem request_load_texture_cache (v : ImageViewer) (p : Path) :
    (request_load v p).1.texture_cache = v.texture_cache := by
  unfold request_load
  split_ifs <;> rfl

theorem update_preloads_index (v : ImageViewer) :
    (update_preloads v).1.current_image_index = v.current_image_index := by
  unfold update_preloads
  split_ifs <;>
    first
      | rfl
      | exact (request_load_index _ _).trans (request_load_index _ _)

theorem update_preloads_folder (v : ImageViewer) :
    (update_preloads v).1.current_folder_images = v.current_folder_images := by
  unfold update_preloads
  split_ifs <;>
    first
      | rfl
      | exact (request_load_folder _ _).trans (request_load_folder _ _)

theorem load_file_index (v : ImageViewer) (p : Path) (r : Bool) :
    (load_file v p r).1.current_image_index = v.current_image_index := by
  unfold load_file
  exact (update_preloads_index _).trans (request_load_index _ _)

/-- C6: with a non-empty folder list of length `n`, `next_image` sets
`current_image_index` to `(old + 1) % n` and `prev_image` sets it to
`old - 1`, wrapping to `n - 1` when the old index is `0`; with an empty
folder list both operations leave the viewer state unchanged (and send
nothing). -/
theorem navigation_wraps (v : ImageViewer) :
    (v.current_folder_images = [] →
        next_image v = (v, []) ∧ prev_image v = (v, [])) ∧
    (v.current_folder_images ≠ [] →
        (next_image v).1.current_image_index
          = (v.current_image_index + 1) % v.current_folder_images.length ∧
        (prev_image v).1.current_image_index
          = (if v.current_image_index = 0 then v.current_folder_images.length - 1
             else v.current_image_index - 1)) := by
  constructor
  · intro h
    constructor
    · unfold next_image
      rw [if_pos h]
    · unfold prev_image
      rw [if_pos h]
  · intro h
    constructor
    · unfold next_image
      rw [if_neg h]
      exact load_file_index _ _ _
    · unfold prev_image
      rw [if_neg h]
      exact load_file_index _ _ _

/-- Witness for C6 on a two-image folder. -/
theorem navigation_wraps_witness :
    sampleViewer.current_folder_images ≠ [] ∧
    ((next_image sampleViewer).1.current_image_index
        = (sampleViewer.current_image_index + 1) % sampleViewer.current_folder_images.length ∧
      (prev_image sampleViewer).1.current_image_index
        = (if sampleViewer.current_image_index = 0
           then sampleViewer.current_folder_images.length - 1
           else sampleViewer.current_image_index - 1)) :=
  ⟨by simp [sampleViewer], (navigation_wraps sampleViewer).2 (by simp [sampleViewer])⟩

theorem prev_idx_mod (idx n : Nat) (h : idx < n) :
    (if idx = 0 then n - 1 else idx - 1) = (idx + n - 1) % n := by
  split_ifs with h0
  · subst h0
    have h1 : 0 + n - 1 = n - 1 := by omega
    rw [h1, Nat.mod_eq_of_lt (by omega)]
  · have h1 : idx + n - 1 = (idx - 1) + n := by omega
    rw [h1, Nat.add_mod_right, Nat.mod_eq_of_lt (by omega)]

/-- C3: after `update_preloads` on a non-empty folder list, the texture
cache only contains the current image path, the previous index's path
and the next index's path (indices wrapping modulo the folder length),
hence at most 3 entries. -/
theorem preload_cache_bounded (v : ImageViewer)
    (hne : v.current_folder_images ≠ [])
    (hidx : v.current_image_index < v.current_folder_images.length) :
    (∀ k ∈ (update_preloads v).1.texture_cache,
        v.current_image_path = some k ∨
        k = v.current_folder_images.getD
              ((v.current_image_index + v.current_folder_images.length - 1)
                % v.current_folder_images.length) "" ∨
        k = v.current_folder_images.getD
              ((v.current_image_index + 1) % v.current_folder_images.length) "") ∧
    (update_preloads v).1.texture_cache.card ≤ 3 := by
  have hprev := prev_idx_mod v.current_image_index v.current_folder_images.length hidx
  unfold update_preloads
  rw [if_neg hne]
  dsimp only
  rw [request_load_current_path, request_load_current_path,
    request_load_texture_cache, request_load_texture_cache, ← hprev]
  constructor
  · intro k hk
    have hkeep := (Finset.mem_filter.mp hk).2
    rcases Finset.mem_union.mp hkeep with hcur | hpn
    · left
      rcases hc : v.current_image_path with _ | curr
      · rw [hc] at hcur
        exact absurd hcur (Finset.not_mem_empty k)
      · rw [hc] at hcur
        have hkc : k = curr := Finset.mem_singleton.mp hcur
        rw [hkc]
    · rcases Finset.mem_insert.mp hpn with hp | hn
      · right; left; exact hp
      · right; right; exact Finset.mem_singleton.mp hn
  · have hsub : ∀ k ∈ (v.texture_cache.filter (fun k =>
        k ∈ (match v.current_image_path with
             | some curr => {curr}
             | none => (∅ : Finset Path)) ∪
            {v.current_folder_images.getD
                (if v.current_image_index = 0 then v.current_folder_images.length - 1
                 else v.current_image_index - 1) "",
              v.current_folder_images.getD
                ((v.current_image_index + 1) % v.current_folder_images.length) ""})),
        k ∈ ((match v.current_image_path with
              | some curr => {curr}
              | none => (∅ : Finset Path)) ∪
            {v.current_folder_images.getD
                (if v.current_image_index = 0 then v.current_folder_images.length - 1
                 else v.current_image_index - 1) "",
              v.current_folder_images.getD
                ((v.current_image_index + 1) % v.current_folder_images.length) ""}) :=
      fun k hk => (Finset.mem_filter.mp hk).2
    refine le_trans (Finset.card_le_card hsub) ?_
    refine le_trans (Finset.card_union_le _ _) ?_
    have h1 : (match v.current_image_path with
               | some curr => ({curr} : Finset Path)
               | none => ∅).card ≤ 1 := by
      rcases v.current_image_path with _ | curr
      · simp
      · simp
    have h2 : ({v.current_folder_images.getD
          (if v.current_image_index = 0 then v.current_folder_images.length - 1
           else v.current_image_index - 1) "",
        v.current_folder_images.getD
          ((v.current_image_index + 1) % v.current_folder_images.length) ""} :
        Finset Path).card ≤ 2 :=
      le_trans (Finset.card_insert_le _ _) (by simp)
    omega

/-- Witness for C3 on a two-image folder. -/
theorem preload_cache_bounded_witness :
    sampleViewer.current_folder_images ≠ [] ∧
    sampleViewer.current_image_index < sampleViewer.current_folder_images.length ∧
    (update_preloads sampleViewer).1.texture_cache.card ≤ 3 :=
  ⟨by simp [sampleViewer], by simp [sampleViewer],
    (preload_cache_bounded sampleViewer (by simp [sampleViewer]) (by simp [sampleViewer])).2⟩

/-! Eviction-loop lemmas for C1. -/

theorem try_load_next_thumbnails (tl : ThumbnailList) (folder : List Path) (ci : Nat) :
    (try_load_next tl folder ci).1.thumbnails = tl.thumbnails := by
  unfold try_load_next
  split_ifs with h
  · rcases hb : (best_loop tl.thumbnails ci folder 0 (none, USIZE_MAX)).1 with _ | idx <;> rfl
  · rfl

theorem evict_loop_subset : ∀ (keys : List Path) (thumbs : Finset Path),
    evict_loop thumbs keys ⊆ thumbs := by
  intro keys
  induction keys with
  | nil => intro thumbs; exact Finset.Subset.refl thumbs
  | cons k rest ih =>
      intro thumbs
      show (if 100 < thumbs.card then evict_loop (thumbs.erase k) rest else thumbs) ⊆ thumbs
      split_ifs with h
      · exact Finset.Subset.trans (ih (thumbs.erase k)) (Finset.erase_subset k thumbs)
      · exact Finset.Subset.refl thumbs

theorem enum_erase (thumbs : Finset Path) (k : Path) (rest : List Path)
    (hnd : (k :: rest).Nodup) (he : ∀ p, p ∈ thumbs ↔ p ∈ k :: rest) :
    ∀ p, p ∈ thumbs.erase k ↔ p ∈ rest := by
  have hknotin : k ∉ rest := (List.nodup_cons.mp hnd).1
  intro p
  rw [Finset.mem_erase]
  constructor
  · rintro ⟨hne, hp⟩
    rcases (by simpa using (he p).mp hp : p = k ∨ p ∈ rest) with h1 | h1
    · exact absurd h1 hne
    · exact h1
  · intro hp
    refine ⟨?_, (he p).mpr (by simp [hp])⟩
    rintro rfl
    exact hknotin hp

theorem evict_loop_card : ∀ (keys : List Path) (thumbs : Finset Path),
    keys.Nodup → (∀ p, p ∈ thumbs ↔ p ∈ keys) →
    (evict_loop thumbs keys).card = min thumbs.card 100 := by
  intro keys
  induction keys with
  | nil =>
      intro thumbs hnd he
      have h0 : thumbs = ∅ :=
        Finset.eq_empty_of_forall_not_mem (fun p hp => by simpa using (he p).mp hp)
      rw [h0]
      simp [evict_loop]
  | cons k rest ih =>
      intro thumbs hnd he
      have hk : k ∈ thumbs := (he k).mpr (by simp)
      have hcard1 : 1 ≤ thumbs.card := Finset.card_pos.mpr ⟨k, hk⟩
      show (if 100 < thumbs.card then evict_loop (thumbs.erase k) rest else thumbs).card
          = min thumbs.card 100
      split_ifs with h
      · rw [ih (thumbs.erase k) (List.nodup_cons.mp hnd).2 (enum_erase thumbs k rest hnd he),
          Finset.card_erase_of_mem hk]
        omega
      · omega

theorem evict_loop_order (d : Path → Nat) :
    ∀ (keys : List Path) (thumbs : Finset Path),
    keys.Nodup → (∀ p, p ∈ thumbs ↔ p ∈ keys) →
    keys.Pairwise (fun a b => d b ≤ d a) →
    ∀ p ∈ thumbs, p ∉ evict_loop thumbs keys →
      ∀ q ∈ evict_loop thumbs keys, d q ≤ d p := by
  intro keys
  induction keys with
  | nil =>
      intro thumbs hnd he hpw p hp hnp q hq
      exact absurd hp hnp
  | cons k rest ih =>
      intro thumbs hnd he hpw p hp hnp q hq
      have he' := enum_erase thumbs k rest hnd he
      simp only [evict_loop] at hnp hq
      split_ifs at hnp hq with h
      · by_cases hpk : p = k
        · subst hpk
          have hq1 : q ∈ thumbs.erase p := evict_loop_subset rest (thumbs.erase p) hq
          exact (List.pairwise_cons.mp hpw).1 q ((he' q).mp hq1)
        · exact ih (thumbs.erase k) (List.nodup_cons.mp hnd).2 he'
            (List.pairwise_cons.mp hpw).2 p (Finset.mem_erase.mpr ⟨hpk, hp⟩) hnp q hq
      · exact absurd hp hnp

theorem evictLE_trans (folder : List Path) (ci : Nat) :
    ∀ a b c, evictLE folder ci a b = true → evictLE folder ci b c = true →
      evictLE folder ci a c = true := by
  intro a b c hab hbc
  simp only [evictLE, decide_eq_true_eq] at hab hbc ⊢
  omega

theorem evictLE_total (folder : List Path) (ci : Nat) :
    ∀ a b, (evictLE folder ci a b || evictLE folder ci b a) = true := by
  intro a b
  simp only [evictLE, Bool.or_eq_true, decide_eq_true_eq]
  omega

/-- C1: on a non-empty folder, `ThumbnailList::update_folder` leaves the
thumbnail cache untouched when it holds at most 200 entries; when it
holds more than 200 entries, the cache is shrunk to at most 100 entries,
only existing entries survive, and eviction removes entries furthest
first: every evicted path is at least as far (in index distance from
`current_index`, with paths missing from the folder treated as index 0)
as every surviving path. -/
theorem thumbnail_cache_eviction (tl : ThumbnailList) (hashKeys folder : List Path)
    (ci : Nat) (hf : folder ≠ []) (hnd : hashKeys.Nodup)
    (he : ∀ p, p ∈ tl.thumbnails ↔ p ∈ hashKeys) :
    (tl.thumbnails.card ≤ 200 →
        (update_folder tl hashKeys folder ci).1.thumbnails = tl.thumbnails) ∧
    (200 < tl.thumbnails.card →
        (update_folder tl hashKeys folder ci).1.thumbnails.card ≤ 100 ∧
        (update_folder tl hashKeys folder ci).1.thumbnails ⊆ tl.thumbnails ∧
        ∀ p ∈ tl.thumbnails, p ∉ (update_folder tl hashKeys folder ci).1.thumbnails →
          ∀ q ∈ (update_folder tl hashKeys folder ci).1.thumbnails,
            pathDist folder ci q ≤ pathDist folder ci p) := by
  have hperm := List.mergeSort_perm hashKeys (evictLE folder ci)
  have hnd' : (hashKeys.mergeSort (evictLE folder ci)).Nodup := hperm.symm.nodup hnd
  have he' : ∀ p, p ∈ tl.thumbnails ↔ p ∈ hashKeys.mergeSort (evictLE folder ci) := by
    intro p
    rw [he p]
    exact hperm.mem_iff.symm
  have hsortedB :=
    List.sorted_mergeSort (evictLE_trans folder ci) (evictLE_total folder ci) hashKeys
  have hsorted : (hashKeys.mergeSort (evictLE folder ci)).Pairwise
      (fun a b => pathDist folder ci b ≤ pathDist folder ci a) :=
    hsortedB.imp (fun h => by simpa [evictLE] using h)
  have hthumbs : (update_folder tl hashKeys folder ci).1.thumbnails
      = (if 200 < tl.thumbnails.card then
          evict_loop tl.thumbnails (hashKeys.mergeSort (evictLE folder ci))
         else tl.thumbnails) := by
    unfold update_folder
    rw [if_neg hf]
    refine (try_load_next_thumbnails _ _ _).trans ?_
    split_ifs <;> rfl
  constructor
  · intro h
    rw [hthumbs, if_neg (by omega)]
  · intro h
    rw [hthumbs, if_pos h]
    refine ⟨?_, evict_loop_subset _ _, ?_⟩
    · rw [evict_loop_card _ _ hnd' he']
      omega
    · exact evict_loop_order (pathDist folder ci) _ _ hnd' he' hsorted

/-- Witness for C1 on a small cache that needs no eviction. -/
theorem thumbnail_cache_eviction_witness :
    ((["a"] : List Path) ≠ []) ∧
    (([] : List Path).Nodup) ∧
    (∀ p : Path, p ∈ (⟨∅, none⟩ : ThumbnailList).thumbnails ↔ p ∈ ([] : List Path)) ∧
    (((⟨∅, none⟩ : ThumbnailList).thumbnails.card ≤ 200 →
        (update_folder ⟨∅, none⟩ [] ["a"] 0).1.thumbnails
          = (⟨∅, none⟩ : ThumbnailList).thumbnails) ∧
      (200 < (⟨∅, none⟩ : ThumbnailList).thumbnails.card →
        (update_folder ⟨∅, none⟩ [] ["a"] 0).1.thumbnails.card ≤ 100 ∧
        (update_folder ⟨∅, none⟩ [] ["a"] 0).1.thumbnails
          ⊆ (⟨∅, none⟩ : ThumbnailList).thumbnails ∧
        ∀ p ∈ (⟨∅, none⟩ : ThumbnailList).thumbnails,
          p ∉ (update_folder ⟨∅, none⟩ [] ["a"] 0).1.thumbnails →
          ∀ q ∈ (update_folder ⟨∅, none⟩ [] ["a"] 0).1.thumbnails,
            pathDist ["a"] 0 q ≤ pathDist ["a"] 0 p)) :=
  ⟨by simp, List.nodup_nil, by simp,
    thumbnail_cache_eviction ⟨∅, none⟩ [] ["a"] 0 (by simp) List.nodup_nil (by simp)⟩

/-! Request-tracking lemmas for C10. -/

theorem try_load_next_some (tl : ThumbnailList) (folder : List Path) (ci : Nat) (p : Path)
    (h : tl.loading_path = some p) : try_load_next tl folder ci = (tl, []) := by
  unfold try_load_next
  rw [if_neg]
  rintro ⟨h1, _⟩
  rw [h] at h1
  exact Option.noConfusion h1

theorem try_load_next_shape (tl : ThumbnailList) (folder : List Path) (ci : Nat) :
    (∃ p', try_load_next tl folder ci
        = ({ tl with loading_path := some p' }, [ThumbnailCommand.Load p' 128])) ∨
    try_load_next tl folder ci = (tl, []) := by
  unfold try_load_next
  split_ifs with hc
  · rcases hb : (best_loop tl.thumbnails ci folder 0 (none, USIZE_MAX)).1 with _ | idx
    · right; rfl
    · left; exact ⟨folder.getD idx "", rfl⟩
  · right; rfl

theorem try_load_next_inflight (tl : ThumbnailList) (folder : List Path) (ci : Nat)
    (h : tl.loading_path = none) :
    (try_load_next tl folder ci).2.length
      = (if (try_load_next tl folder ci).1.loading_path.isSome then 1 else 0) := by
  rcases try_load_next_shape tl folder ci with ⟨p', e⟩ | e <;> rw [e] <;> simp [h]

theorem update_folder_as_try (tl : ThumbnailList) (hashKeys folder : List Path) (ci : Nat) :
    (folder = [] → update_folder tl hashKeys folder ci = (tl, [])) ∧
    (folder ≠ [] → ∃ tl1 : ThumbnailList, tl1.loading_path = tl.loading_path ∧
        update_folder tl hashKeys folder ci = try_load_next tl1 folder ci) := by
  constructor
  · intro h
    unfold update_folder
    rw [if_pos h]
  · intro h
    unfold update_folder
    rw [if_neg h]
    refine ⟨if 200 < tl.thumbnails.card then
        { tl with thumbnails :=
            evict_loop tl.thumbnails (hashKeys.mergeSort (evictLE folder ci)) }
      else tl, ?_, rfl⟩
    split_ifs <;> rfl

theorem process_results_nil (tl : ThumbnailList) (folder : List Path) (ci : Nat) :
    (process_results tl [] folder ci).1.loading_path = tl.loading_path ∧
    (process_results tl [] folder ci).2 = [] :=
  ⟨rfl, rfl⟩

theorem process_results_cons (tl : ThumbnailList) (results : List ThumbnailResult)
    (folder : List Path) (ci : Nat) (h : results ≠ []) :
    ∃ tl2 : ThumbnailList, tl2.loading_path = none ∧
      process_results tl results folder ci = try_load_next tl2 folder ci := by
  unfold process_results
  split_ifs with h0
  · exact absurd h0 h
  · refine ⟨_, ?_, rfl⟩
    rfl

theorem thumb_inflight_inv (s : ThumbSys) (h : ThumbReachable s) :
    s.inflight = (if s.tl.loading_path.isSome then 1 else 0) := by
  induction h with
  | init => rfl
  | step_update_folder s hashKeys folder ci hs ih =>
      dsimp only
      by_cases hf : folder = []
      · rw [(update_folder_as_try s.tl hashKeys folder ci).1 hf]
        simpa using ih
      · obtain ⟨tl1, hload, e⟩ := (update_folder_as_try s.tl hashKeys folder ci).2 hf
        rw [e]
        rcases hl : tl1.loading_path with _ | p
        · have hsl : s.tl.loading_path = none := hload.symm.trans hl
          have hs0 : s.inflight = 0 := by rw [ih, hsl]; rfl
          rw [hs0, Nat.zero_add]
          exact try_load_next_inflight tl1 folder ci hl
        · rw [try_load_next_some tl1 folder ci p hl]
          have hsl : s.tl.loading_path = some p := hload.symm.trans hl
          have hs1 : s.inflight = 1 := by rw [ih, hsl]; rfl
          rw [hs1]
          simp [hl]
  | step_process s results folder ci hs hlen ih =>
      dsimp only
      by_cases h0 : results = []
      · subst h0
        rw [(process_results_nil s.tl folder ci).2, (process_results_nil s.tl folder ci).1]
        simpa using ih
      · obtain ⟨tl2, hl2, e⟩ := process_results_cons s.tl results folder ci h0
        rw [e]
        have h1 : 0 < results.length := List.length_pos.mpr h0
        have hs1 : s.inflight = 1 := by
          rw [ih] at hlen ⊢
          split_ifs at hlen ⊢ with hsome
          · rfl
          · omega
        have hlen1 : results.length = 1 := by omega
        rw [hs1, hlen1]
        simpa using try_load_next_inflight tl2 folder ci hl2

/-- Loop-invariant characterisation of the nearest-missing-thumbnail
scan in `ThumbnailList::try_load_next`: the accumulator's distance never
increases; it only changes by a strict decrease; the result is either
the unchanged accumulator or a missing entry of the list; the result's
distance is a lower bound on the distance of every missing entry; and
any missing entry whose distance equals the result's distance lies at or
after the chosen index (ties go to the smaller index). -/
theorem best_loop_spec (thumbs : Finset Path) (ci : Nat) :
    ∀ (l : List Path) (i0 : Nat) (acc : Option Nat × Nat),
      (∀ j, j < l.length → l.getD j "" ∉ thumbs →
          idxDist (i0 + j) ci < acc.2 ∨ ∃ b, acc.1 = some b ∧ b ≤ i0 + j) →
      (best_loop thumbs ci l i0 acc).2 ≤ acc.2 ∧
      ((best_loop thumbs ci l i0 acc).2 = acc.2 → best_loop thumbs ci l i0 acc = acc) ∧
      (best_loop thumbs ci l i0 acc = acc ∨
        ∃ j, j < l.length ∧ l.getD j "" ∉ thumbs ∧
          best_loop thumbs ci l i0 acc = (some (i0 + j), idxDist (i0 + j) ci)) ∧
      (∀ j, j < l.length → l.getD j "" ∉ thumbs →
          (best_loop thumbs ci l i0 acc).2 ≤ idxDist (i0 + j) ci) ∧
      (∀ j, j < l.length → l.getD j "" ∉ thumbs →
          idxDist (i0 + j) ci = (best_loop thumbs ci l i0 acc).2 →
          ∃ b, (best_loop thumbs ci l i0 acc).1 = some b ∧ b ≤ i0 + j) := by
  intro l
  induction l with
  | nil =>
      intro i0 acc hacc
      refine ⟨le_refl _, fun _ => rfl, Or.inl rfl, ?_, ?_⟩ <;> intro j hj <;> simp at hj
  | cons p rest ih =>
      intro i0 acc hacc
      by_cases hp : p ∈ thumbs
      · have hstep : best_loop thumbs ci (p :: rest) i0 acc
            = best_loop thumbs ci rest (i0 + 1) acc := by
          simp [best_loop, hp]
        have hacc' : ∀ j, j < rest.length → rest.getD j "" ∉ thumbs →
            idxDist (i0 + 1 + j) ci < acc.2 ∨ ∃ b, acc.1 = some b ∧ b ≤ i0 + 1 + j := by
          intro j hj hm
          have h := hacc (j + 1) (by simpa using Nat.succ_lt_succ hj) hm
          rw [show i0 + (j + 1) = i0 + 1 + j from by omega] at h
          exact h
        obtain ⟨ih1, ih2, ih3, ih4, ih5⟩ := ih (i0 + 1) acc hacc'
        rw [hstep]
        refine ⟨ih1, ih2, ?_, ?_, ?_⟩
        · rcases ih3 with h | ⟨j, hj, hm, he⟩
          · exact Or.inl h
          · refine Or.inr ⟨j + 1, by simpa using Nat.succ_lt_succ hj, hm, ?_⟩
            rw [show i0 + (j + 1) = i0 + 1 + j from by omega]
            exact he
        · intro j hj hm
          rcases j with _ | jj
          · exact absurd hp hm
          · have h := ih4 jj (by simpa using Nat.lt_of_succ_lt_succ hj) hm
            rw [show i0 + (jj + 1) = i0 + 1 + jj from by omega]
            exact h
        · intro j hj hm heq
          rcases j with _ | jj
          · exact absurd hp hm
          · have h := ih5 jj (by simpa using Nat.lt_of_succ_lt_succ hj) hm
            rw [show i0 + (jj + 1) = i0 + 1 + jj from by omega] at heq ⊢
            exact h heq
      · by_cases hd : idxDist i0 ci < acc.2
        · -- the scan updates to (some i0, idxDist i0 ci)
          have hstep : best_loop thumbs ci (p :: rest) i0 acc
              = best_loop thumbs ci rest (i0 + 1) (some i0, idxDist i0 ci) := by
            simp [best_loop, hp, hd]
          have hacc' : ∀ j, j < rest.length → rest.getD j "" ∉ thumbs →
              idxDist (i0 + 1 + j) ci < (some i0, idxDist i0 ci).2 ∨
              ∃ b, ((some i0, idxDist i0 ci) : Option Nat × Nat).1 = some b ∧
                b ≤ i0 + 1 + j := by
            intro j hj hm
            exact Or.inr ⟨i0, rfl, by omega⟩
          obtain ⟨ih1, ih2, ih3, ih4, ih5⟩ := ih (i0 + 1) (some i0, idxDist i0 ci) hacc'
          rw [hstep]
          have hr2 : (best_loop thumbs ci rest (i0 + 1) (some i0, idxDist i0 ci)).2
              ≤ idxDist i0 ci := ih1
          refine ⟨le_of_lt (lt_of_le_of_lt hr2 hd), ?_, ?_, ?_, ?_⟩
          · intro h2
            exact absurd h2 (ne_of_lt (lt_of_le_of_lt hr2 hd))
          · rcases ih3 with h | ⟨j, hj, hm, he⟩
            · refine Or.inr ⟨0, by simp, hp, ?_⟩
              rw [h]
              simp
            · refine Or.inr ⟨j + 1, by simpa using Nat.succ_lt_succ hj, hm, ?_⟩
              rw [show i0 + (j + 1) = i0 + 1 + j from by omega]
              exact he
          · intro j hj hm
            rcases j with _ | jj
            · simpa using hr2
            · have h := ih4 jj (by simpa using Nat.lt_of_succ_lt_succ hj) hm
              rw [show i0 + (jj + 1) = i0 + 1 + jj from by omega]
              exact h
          · intro j hj hm heq
            rcases j with _ | jj
            · have heq' : idxDist i0 ci
                  = (best_loop thumbs ci rest (i0 + 1) (some i0, idxDist i0 ci)).2 := by
                simpa using heq
              have hre : best_loop thumbs ci rest (i0 + 1) (some i0, idxDist i0 ci)
                  = (some i0, idxDist i0 ci) := ih2 heq'.symm
              exact ⟨i0, by rw [hre], by omega⟩
            · have h := ih5 jj (by simpa using Nat.lt_of_succ_lt_succ hj) hm
              rw [show i0 + (jj + 1) = i0 + 1 + jj from by omega] at heq ⊢
              exact h heq
        · -- no update: the candidate is at least as far as the accumulator
          have hstep : best_loop thumbs ci (p :: rest) i0 acc
              = best_loop thumbs ci rest (i0 + 1) acc := by
            simp [best_loop, hp, hd]
          have hacc' : ∀ j, j < rest.length → rest.getD j "" ∉ thumbs →
              idxDist (i0 + 1 + j) ci < acc.2 ∨ ∃ b, acc.1 = some b ∧ b ≤ i0 + 1 + j := by
            intro j hj hm
            have h := hacc (j + 1) (by simpa using Nat.succ_lt_succ hj) hm
            rw [show i0 + (j + 1) = i0 + 1 + j from by omega] at h
            exact h
          obtain ⟨ih1, ih2, ih3, ih4, ih5⟩ := ih (i0 + 1) acc hacc'
          rw [hstep]
          have hda : acc.2 ≤ idxDist i0 ci := not_lt.mp hd
          refine ⟨ih1, ih2, ?_, ?_, ?_⟩
          · rcases ih3 with h | ⟨j, hj, hm, he⟩
            · exact Or.inl h
            · refine Or.inr ⟨j + 1, by simpa using Nat.succ_lt_succ hj, hm, ?_⟩
              rw [show i0 + (j + 1) = i0 + 1 + j from by omega]
              exact he
          · intro j hj hm
            rcases j with _ | jj
            · simpa using le_trans ih1 hda
            · have h := ih4 jj (by simpa using Nat.lt_of_succ_lt_succ hj) hm
              rw [show i0 + (jj + 1) = i0 + 1 + jj from by omega]
              exact h
          · intro j hj hm heq
            rcases j with _ | jj
            · have heq' : idxDist i0 ci
                  = (best_loop thumbs ci rest (i0 + 1) acc).2 := by simpa using heq
              have hr2a : (best_loop thumbs ci rest (i0 + 1) acc).2 = acc.2 :=
                le_antisymm ih1 (by rw [← heq']; exact hda)
              have hre : best_loop thumbs ci rest (i0 + 1) acc = acc := ih2 hr2a
              have h0 := hacc 0 (by simp) hp
              rcases h0 with h0 | ⟨b, hb, hble⟩
              · rw [show i0 + 0 = i0 from by omega] at h0
                rw [heq', hr2a] at h0
                exact absurd h0 (lt_irrefl _)
              · exact ⟨b, by rw [hre]; exact hb, hble⟩
            · have h := ih5 jj (by simpa using Nat.lt_of_succ_lt_succ hj) hm
              rw [show i0 + (jj + 1) = i0 + 1 + jj from by omega] at heq ⊢
              exact h heq

/-- C10: at most one thumbnail decode request is outstanding at any
time — in every reachable state the in-flight count equals 1 exactly
when `loading_path` is set, hence is at most 1; `try_load_next` is a
no-op while `loading_path` is `Some`; `process_results` with no received
result leaves `loading_path` set and sends nothing; and when
`loading_path` is `None`, `try_load_next` sends nothing if every folder
entry is cached, and otherwise requests the uncached entry of minimal
index distance from `current_index`, ties broken toward the smaller
index, recording it in `loading_path`. -/
theorem single_outstanding_thumbnail :
    (∀ s : ThumbSys, ThumbReachable s →
        s.inflight = (if s.tl.loading_path.isSome then 1 else 0) ∧ s.inflight ≤ 1) ∧
    (∀ (tl : ThumbnailList) (folder : List Path) (ci : Nat) (p : Path),
        tl.loading_path = some p → try_load_next tl folder ci = (tl, [])) ∧
    (∀ (tl : ThumbnailList) (folder : List Path) (ci : Nat),
        (process_results tl [] folder ci).1.loading_path = tl.loading_path ∧
        (process_results tl [] folder ci).2 = []) ∧
    (∀ (tl : ThumbnailList) (folder : List Path) (ci : Nat),
        tl.loading_path = none → ci < folder.length → folder.length ≤ USIZE_MAX →
        ((∀ j, j < folder.length → folder.getD j "" ∈ tl.thumbnails) →
            try_load_next tl folder ci = (tl, [])) ∧
        ((∃ j, j < folder.length ∧ folder.getD j "" ∉ tl.thumbnails) →
            ∃ idx, idx < folder.length ∧ folder.getD idx "" ∉ tl.thumbnails ∧
              (try_load_next tl folder ci).1.loading_path
                = some (folder.getD idx "") ∧
              (try_load_next tl folder ci).2
                = [ThumbnailCommand.Load (folder.getD idx "") 128] ∧
              ∀ j, j < folder.length → folder.getD j "" ∉ tl.thumbnails →
                idxDist idx ci ≤ idxDist j ci ∧
                (idxDist j ci = idxDist idx ci → idx ≤ j))) := by
  refine ⟨?_, ?_, ?_, ?_⟩
  · intro s hs
    have h := thumb_inflight_inv s hs
    refine ⟨h, ?_⟩
    rw [h]
    split_ifs <;> omega
  · intro tl folder ci p hp
    exact try_load_next_some tl folder ci p hp
  · intro tl folder ci
    exact process_results_nil tl folder ci
  · intro tl folder ci hnone hci hlenM
    have hfne : folder ≠ [] := List.length_pos.mp (lt_of_le_of_lt (Nat.zero_le _) hci)
    have hacc0 : ∀ j, j < folder.length → folder.getD j "" ∉ tl.thumbnails →
        idxDist (0 + j) ci < ((none : Option Nat), USIZE_MAX).2 ∨
        ∃ b, ((none : Option Nat), USIZE_MAX).1 = some b ∧ b ≤ 0 + j := by
      intro j hj _
      left
      unfold idxDist
      omega
    obtain ⟨s1, s2, s3, s4, s5⟩ :=
      best_loop_spec tl.thumbnails ci folder 0 (none, USIZE_MAX) hacc0
    constructor
    · intro hall
      have hbnone : (best_loop tl.thumbnails ci folder 0 (none, USIZE_MAX)).1 = none := by
        rcases s3 with h | ⟨j, hj, hm, he⟩
        · rw [h]
        · exact absurd (hall j hj) (fun hc => hm hc)
      unfold try_load_next
      rw [if_pos ⟨hnone, hfne⟩, hbnone]
    · rintro ⟨j0, hj0, hm0⟩
      have hr2 : (best_loop tl.thumbnails ci folder 0 (none, USIZE_MAX)).2
          ≤ idxDist (0 + j0) ci := s4 j0 hj0 hm0
      have hltM : idxDist (0 + j0) ci < USIZE_MAX := by
        unfold idxDist
        omega
      have hrneq : (best_loop tl.thumbnails ci folder 0 (none, USIZE_MAX)).2
          ≠ USIZE_MAX := Nat.ne_of_lt (lt_of_le_of_lt hr2 hltM)
      rcases s3 with h | ⟨j, hj, hm, he⟩
      · exact absurd (congrArg Prod.snd h) hrneq
      · rw [Nat.zero_add] at he
        have hb1 : (best_loop tl.thumbnails ci folder 0 (none, USIZE_MAX)).1 = some j := by
          rw [he]
        refine ⟨j, hj, hm, ?_, ?_, ?_⟩
        · unfold try_load_next
          rw [if_pos ⟨hnone, hfne⟩, hb1]
        · unfold try_load_next
          rw [if_pos ⟨hnone, hfne⟩, hb1]
        · intro j' hj' hm'
          constructor
          · have h4 := s4 j' hj' hm'
            rw [he] at h4
            simpa using h4
          · intro heq
            have h5 := s5 j' hj' hm' (by rw [he]; simpa using heq)
            obtain ⟨b, hb, hble⟩ := h5
            rw [he] at hb
            have hjb : j = b := by simpa using hb
            omega

/-- Witness for C10: the invariant at the initial state, and the no-op
behaviour of `try_load_next` with a request in flight. -/
theorem single_outstanding_thumbnail_witness :
    ((⟨⟨∅, none⟩, 0⟩ : ThumbSys).inflight
        = (if (⟨⟨∅, none⟩, 0⟩ : ThumbSys).tl.loading_path.isSome then 1 else 0) ∧
      (⟨⟨∅, none⟩, 0⟩ : ThumbSys).inflight ≤ 1) ∧
    try_load_next ⟨∅, some "a"⟩ ["b"] 0 = (⟨∅, some "a"⟩, []) :=
  ⟨single_outstanding_thumbnail.1 ⟨⟨∅, none⟩, 0⟩ ThumbReachable.init,
    single_outstanding_thumbnail.2.1 ⟨∅, some "a"⟩ ["b"] 0 "a" rfl⟩

end BIV
